import Mathlib

/-!
Verification development for the sunspot ephemeris engine
(`sunspot.py`).  The Python source is shallowly embedded below:
strings are Lean `String`s manipulated through their character lists,
Python exceptions become an explicit `PyError` sum carried in `Except`,
and the insertion-ordered `defaultdict(list)` becomes an association
list with an append-to-first-matching-key operation.
-/

namespace Sunspot

/-- Kinds of Python exception the embedded code can raise:
`valueError` from `list.index` on a missing element, `indexError` from an
out-of-range subscript, `attributeError` from calling a method on `None`,
`typeError` from subscripting `None`, and `systemError msg` for the
explicit `raise SystemError(msg)` statements in the source. -/
inductive PyError where
  | valueError : PyError
  | indexError : PyError
  | attributeError : PyError
  | typeError : PyError
  | systemError : String → PyError
deriving Repr, DecidableEq

/-- Split a character list on a separator character, Python-style:
`"".split(c)` is `[""]`, and separators at either end produce empty
groups. -/
def splitOnChar (c : Char) : List Char → List (List Char)
  | [] => [[]]
  | x :: xs =>
    if x = c then [] :: splitOnChar c xs
    else
      match splitOnChar c xs with
      | [] => [[x]]
      | g :: gs => (x :: g) :: gs

/-- Python `s.split(c)` for a one-character separator. -/
def pySplit (s : String) (c : Char) : List String :=
  (splitOnChar c s.data).map String.mk

/-- Python `s.strip(' ')`: remove leading and trailing SPACE characters
(only U+0020, not tabs or other whitespace). -/
def stripSpaces (s : String) : String :=
  String.mk (((s.data.dropWhile (· = ' ')).reverse.dropWhile (· = ' ')).reverse)

/-- Python `l[i]` for a possibly negative index `i`: a negative index
counts from the end of the list; out of range yields `none`
(an `IndexError` in Python). -/
def pyGet? (l : List String) (i : Int) : Option String :=
  if 0 ≤ i then l.get? i.toNat
  else if -i ≤ (l.length : Int) then l.get? (l.length - (-i).toNat) else none

/-- Python `l.index(x)`: the index of the first occurrence of `x`,
raising `ValueError` when `x` is absent. -/
def pyIndex (x : String) : List String → Except PyError Nat
  | [] => .error .valueError
  | y :: ys => if y = x then .ok 0 else (pyIndex x ys).map (· + 1)

/-- First index of `x` in `l`, Python `l.index(x)` under the guarantee
`x ∈ l` (returns `l.length` when absent, a case the source never hits). -/
def listIndex (x : String) : List String → Nat
  | [] => 0
  | y :: ys => if y = x then 0 else listIndex x ys + 1

/-- Convert an `Option` to an `Except`, raising `e` on `none`. -/
def orElseErr (o : Option α) (e : PyError) : Except PyError α :=
  match o with
  | some a => .ok a
  | none => .error e

/-- The model of Python's insertion-ordered `dict` from column titles to
lists of values. -/
abbrev Dict := List (String × List String)

/-- Lookup in the dict model: the value at the first matching key,
`none` when the key is absent (Python `d.get(k)` returning `None`). -/
def dictGet? (d : Dict) (k : String) : Option (List String) :=
  match d with
  | [] => none
  | (k', v) :: rest => if k' = k then some v else dictGet? rest k

/-- Python `defaultdict(list)`'s `d[k].append(v)`: append `v` to the
list at the first occurrence of key `k`, or install the key at the end
with the singleton list when absent. -/
def dictAppend (d : Dict) (k : String) (v : String) : Dict :=
  match d with
  | [] => [(k, [v])]
  | (k', vs) :: rest =>
    if k' = k then (k', vs ++ [v]) :: rest else (k', vs) :: dictAppend rest k v

/-- Is `sub` a prefix of `l`? (character lists). -/
def prefixOfL : List Char → List Char → Bool
  | [], _ => true
  | _ :: _, [] => false
  | a :: as, b :: bs => a = b && prefixOfL as bs

/-- Is `sub` a contiguous substring of `l`? (character lists). -/
def infixOfL (sub : List Char) : List Char → Bool
  | [] => prefixOfL sub []
  | b :: bs => prefixOfL sub (b :: bs) || infixOfL sub bs

/-- Python `sub in s` on strings: substring containment. -/
def containsSub (s sub : String) : Bool :=
  infixOfL sub.data s.data

/-! ## The embedded source of `sunspot.py` -/

/-- `ILLEGAL_CHARACTER_FROM_JPL` from the source: the noise tokens
dropped from every data row. -/
def ILLEGAL_CHARACTER_FROM_JPL : List String := ["C", "m", "N", "A", "*", ""]

/-- `Ephemeris.clean_ephemeris_data` (sunspot.py lines 35-44): split the
raw text into lines, read the title line two positions before the first
`$$SOE` line (Python negative-index semantics included), split it on
commas, strip spaces, drop empties; the data entries are the lines
strictly between the first `$$SOE` and the first `$$EOE`. -/
def clean_ephemeris_data (raw : String) : Except PyError (List String × List String) := do
  let entries := pySplit raw '\n'
  let i ← pyIndex "$$SOE" entries
  let titleLine ← orElseErr (pyGet? entries ((i : Int) - 2)) .indexError
  let titles := (pySplit titleLine ',').map stripSpaces
  let titles := titles.filter (fun t => t ≠ "")
  let j ← pyIndex "$$EOE" entries
  let dataEntries := (entries.drop (i + 1)).take (j - (i + 1))
  pure (dataEntries, titles)

/-- The per-row processing of `Ephemeris.parse_ephemeris_data`
(sunspot.py lines 53-56): split the row on commas, strip spaces from
each field, drop fields equal to a noise token. -/
def processRow (row : String) : List String :=
  ((pySplit row ',').map stripSpaces).filter (fun t => t ∉ ILLEGAL_CHARACTER_FROM_JPL)

/-- The inner loop of `parse_ephemeris_data` (sunspot.py lines 57-58):
for each title position `j`, append `row_items[j]` to the dict entry of
that title; subscripting past the end of `items` raises `IndexError`. -/
def appendRowAux (d : Dict) (items : List String) : List String → Nat → Except PyError Dict
  | [], _ => .ok d
  | t :: ts, j =>
    match items.get? j with
    | none => .error .indexError
    | some v => appendRowAux (dictAppend d t v) items ts (j + 1)

/-- `Ephemeris.parse_ephemeris_data` (sunspot.py lines 46-59): process
the data rows in order, appending each row's fields positionally under
the column titles, starting from the empty `defaultdict`. -/
def parse_ephemeris_data (titles : List String) : List String → Dict → Except PyError Dict
  | [], d => .ok d
  | row :: rows, d =>
    match appendRowAux d (processRow row) titles 0 with
    | .error e => .error e
    | .ok d' => parse_ephemeris_data titles rows d'

/-- The parsed table: the fields of a constructed Python `Ephemeris`
object (`DATA_ENTRIES`, `DATA_TITLES`, `PARSED_DATA`). -/
structure Ephemeris where
  DATA_ENTRIES : List String
  DATA_TITLES : List String
  PARSED_DATA : Dict
deriving Repr, DecidableEq

/-- The parsing part of `Ephemeris.__init__` (sunspot.py lines 32-33):
clean the raw text then parse the rows; any exception aborts
construction and no table is produced. -/
def Ephemeris.construct (raw : String) : Except PyError Ephemeris :=
  match clean_ephemeris_data raw with
  | .error e => .error e
  | .ok (entries, titles) =>
    match parse_ephemeris_data titles entries [] with
    | .error e => .error e
    | .ok parsed => .ok ⟨entries, titles, parsed⟩

/-- `Ephemeris.get_ephemeris_data` (sunspot.py lines 61-68): raise
`SystemError` when the title is not among `DATA_TITLES`, otherwise
return `PARSED_DATA.get(title)` — which is Python `None` (here `none`)
when the dict holds no such key. -/
def get_ephemeris_data (e : Ephemeris) (column_title : String) : Except PyError (Option (List String)) :=
  if column_title ∈ e.DATA_TITLES then .ok (dictGet? e.PARSED_DATA column_title)
  else .error (.systemError "Method argument must be an ephemeris data column title.")

/-- `Ephemeris.dates` (sunspot.py lines 70-74). -/
def Ephemeris.dates (e : Ephemeris) : Except PyError (Option (List String)) :=
  get_ephemeris_data e "Date__(UT)__HR:MN:SS"

/-- `Ephemeris.find_corresponding_data` (sunspot.py lines 76-88):
fetch the source column (a `SystemError` when the title is unknown; an
`AttributeError` when the column is Python `None`, since
`None.__contains__` does not exist); return `None` when the source value
is absent; otherwise fetch the target column (`TypeError` if it is
`None`, `IndexError` if too short) and return its entry at the first
index of the source value. -/
def find_corresponding_data (e : Ephemeris) (target source point : String) : Except PyError (Option String) := do
  let sd? ← get_ephemeris_data e source
  match sd? with
  | none => .error .attributeError
  | some sd =>
    if point ∈ sd then do
      let td? ← get_ephemeris_data e target
      match td? with
      | none => .error .typeError
      | some td =>
        match td.get? (listIndex point sd) with
        | none => .error .indexError
        | some v => pure (some v)
    else pure none

/-- The prefix `p` of every fault explanation in
`validate_ephemeris_data` (sunspot.py line 151). -/
def jplFaultPreamble : String := "NASA/JPL Horizons API detects fault: "

/-- `validate_ephemeris_data` (sunspot.py lines 145-173): scan the
response body for the eleven catalogued fault substrings, in source
order, raising `SystemError` with a marker-specific explanation at the
first match; succeed when none matches. -/
def validate_ephemeris_data (response : String) : Except PyError Unit :=
  if containsSub response "Cannot use print-out interval <= zero" then
    .error (.systemError (jplFaultPreamble ++ "\x27Cannot use print-out interval <= zero\x27. Confirm valid temporal step size."))
  else if containsSub response "Bad dates -- start must be earlier than stop" then
    .error (.systemError (jplFaultPreamble ++ "\x27Bad dates -- start must be earlier than stop\x27. Check start or stop time."))
  else if containsSub response "Cannot interpret date. Type \"?!\" or try YYYY-MMM-DD \x7bHH:MN\x7d format" then
    .error (.systemError (jplFaultPreamble ++ "\x27Cannot interpret date. Type \"?!\" or try YYYY-MMM-DD \x7bHH:MN\x7d format\x27. Check date format."))
  else if containsSub response "Cannot interpret date. Type \"?!\" or try YYYY-Mon-Dy \x7bHH:MM\x7d format." then
    .error (.systemError (jplFaultPreamble ++ "Cannot interpret date. Type \"?!\" or try YYYY-Mon-Dy \x7bHH:MM\x7d format.\x27. Check date format."))
  else if containsSub response "No matches found." then
    .error (.systemError (jplFaultPreamble ++ "\x27No matches found.\x27 Verify matching \x27Target Body\x27 here: https://ssd.jpl.nasa.gov/horizons/app.html#/"))
  else if containsSub response "Use ID# to make unique selection" then
    .error (.systemError (jplFaultPreamble ++ "\x27Use ID# to make unique selection\x27. Use precise ID# to narrow \x27Target Body\x27 search: https://ssd.jpl.nasa.gov/horizons/app.html#/"))
  else if containsSub response "No site matches. Use \"*@body\" to list, \"c@body\" to enter coords, ?! for help." then
    .error (.systemError (jplFaultPreamble ++ "\x27No site matches. Use \"*@body\" to list, \"c@body\" to enter coords, ?! for help.\x27. Check \x27Target Body\x27 center."))
  else if containsSub response "Observer table for observer=target disallowed." then
    .error (.systemError (jplFaultPreamble ++ "\x27Observer table for observer=target disallowed.\x27 Cannot view Earth from Earth."))
  else if containsSub response "Unknown units specification -- re-enter" then
    .error (.systemError (jplFaultPreamble ++ "\x27Unknown units specification -- re-enter\x27. Check step_size argument format."))
  else if containsSub response "exceeds 90024 line max -- change step-size" then
    .error (.systemError (jplFaultPreamble ++ "\x27Projected output length... exceeds 90024 line max -- change step-size\x27. Horizons prints a 90024 entry maximum."))
  else if containsSub response "Unknown quantity requested" then
    .error (.systemError (jplFaultPreamble ++ "\x27Unknown quantity requested\x27. Check \x27quantity\x27 argument for recovering JPL ephemeris."))
  else .ok ()

/-- The deterministic tail of `get_jpl_ephemeris` (sunspot.py lines
139-142), given the decoded response body the network call produced:
validate the body and return it unchanged when no fault marker
matches.  The network transport itself is outside the embedding. -/
def get_jpl_ephemeris_onResponse (response : String) : Except PyError String :=
  match validate_ephemeris_data response with
  | .error e => .error e
  | .ok _ => .ok response

/-- `Ephemeris.__init__` (sunspot.py lines 23-33) from the decoded
response body onward: fault validation first, then cleaning and
parsing. -/
def Ephemeris.init (response : String) : Except PyError Ephemeris :=
  match get_jpl_ephemeris_onResponse response with
  | .error e => .error e
  | .ok raw => Ephemeris.construct raw

/-- The catalog of the eleven fault markers with their explanations, in
the order the source checks them.  This is the claim-side
reformulation of `validate_ephemeris_data` as one ordered table. -/
def JPL_FAULT_CATALOG : List (String × String) :=
  [ ("Cannot use print-out interval <= zero",
     jplFaultPreamble ++ "\x27Cannot use print-out interval <= zero\x27. Confirm valid temporal step size."),
    ("Bad dates -- start must be earlier than stop",
     jplFaultPreamble ++ "\x27Bad dates -- start must be earlier than stop\x27. Check start or stop time."),
    ("Cannot interpret date. Type \"?!\" or try YYYY-MMM-DD \x7bHH:MN\x7d format",
     jplFaultPreamble ++ "\x27Cannot interpret date. Type \"?!\" or try YYYY-MMM-DD \x7bHH:MN\x7d format\x27. Check date format."),
    ("Cannot interpret date. Type \"?!\" or try YYYY-Mon-Dy \x7bHH:MM\x7d format.",
     jplFaultPreamble ++ "Cannot interpret date. Type \"?!\" or try YYYY-Mon-Dy \x7bHH:MM\x7d format.\x27. Check date format."),
    ("No matches found.",
     jplFaultPreamble ++ "\x27No matches found.\x27 Verify matching \x27Target Body\x27 here: https://ssd.jpl.nasa.gov/horizons/app.html#/"),
    ("Use ID# to make unique selection",
     jplFaultPreamble ++ "\x27Use ID# to make unique selection\x27. Use precise ID# to narrow \x27Target Body\x27 search: https://ssd.jpl.nasa.gov/horizons/app.html#/"),
    ("No site matches. Use \"*@body\" to list, \"c@body\" to enter coords, ?! for help.",
     jplFaultPreamble ++ "\x27No site matches. Use \"*@body\" to list, \"c@body\" to enter coords, ?! for help.\x27. Check \x27Target Body\x27 center."),
    ("Observer table for observer=target disallowed.",
     jplFaultPreamble ++ "\x27Observer table for observer=target disallowed.\x27 Cannot view Earth from Earth."),
    ("Unknown units specification -- re-enter",
     jplFaultPreamble ++ "\x27Unknown units specification -- re-enter\x27. Check step_size argument format."),
    ("exceeds 90024 line max -- change step-size",
     jplFaultPreamble ++ "\x27Projected output length... exceeds 90024 line max -- change step-size\x27. Horizons prints a 90024 entry maximum."),
    ("Unknown quantity requested",
     jplFaultPreamble ++ "\x27Unknown quantity requested\x27. Check \x27quantity\x27 argument for recovering JPL ephemeris.") ]

/-- First matching fault in a catalog: the explanation paired with the
first marker that is a substring of the response, scanning in order. -/
def firstFault (r : String) : List (String × String) → Option String
  | [] => none
  | (m, msg) :: rest => if containsSub r m then some msg else firstFault r rest

/-! ## Helper lemmas about the dict model and row appending -/

/-- Lookup after a defaultdict append: the appended key's list grows by
one value at the end; every other key is untouched. -/
theorem dictGet?_dictAppend (d : Dict) (k v k' : String) :
    dictGet? (dictAppend d k v) k' =
      if k' = k then some ((dictGet? d k).getD [] ++ [v]) else dictGet? d k' := by
  induction d with
  | nil =>
    simp only [dictAppend, dictGet?]
    split_ifs with h1 h2 h3 <;> simp_all
  | cons hd tl ih =>
    obtain ⟨k'', vs⟩ := hd
    simp only [dictAppend]
    split_ifs with h1 <;> simp only [dictGet?] <;> split_ifs <;> simp_all

/-- The pure (exception-free) version of the inner append loop: the
value appended for a title at loop position `j` is `items.getD j ""`. -/
def appendPure (items : List String) : Dict → List String → Nat → Dict
  | d, [], _ => d
  | d, t :: ts, j => appendPure items (dictAppend d t (items.getD j "")) ts (j + 1)

/-- Keys outside the title segment are untouched by the append loop. -/
theorem appendPure_not_mem (items : List String) (ts : List String) (k : String)
    (h : k ∉ ts) : ∀ d j0, dictGet? (appendPure items d ts j0) k = dictGet? d k := by
  induction ts with
  | nil => intro d j0; rfl
  | cons t ts ih =>
    intro d j0
    have hk : k ≠ t := fun hh => h (hh ▸ List.mem_cons_self t ts)
    have hts : k ∉ ts := fun hh => h (List.mem_cons_of_mem t hh)
    rw [appendPure, ih hts, dictGet?_dictAppend, if_neg hk]

/-- Lookup of a title occurring exactly once in the segment, at relative
position `p`: the append loop extends its list by the row item at
absolute position `j0 + p`. -/
theorem appendPure_get (items : List String) (ts : List String) (k : String) :
    ∀ p j0 d, ts.get? p = some k → k ∉ ts.take p → k ∉ ts.drop (p + 1) →
      dictGet? (appendPure items d ts j0) k =
        some ((dictGet? d k).getD [] ++ [items.getD (j0 + p) ""]) := by
  induction ts with
  | nil => intro p j0 d hp _ _; simp [List.get?] at hp
  | cons t ts ih =>
    intro p j0 d hp h1 h2
    cases p with
    | zero =>
      have ht : t = k := by simpa [List.get?] using hp
      have hts : k ∉ ts := by simpa using h2
      simp only [appendPure]
      rw [ht, appendPure_not_mem items ts k hts, dictGet?_dictAppend, if_pos rfl]
      simp
    | succ p =>
      have hp' : ts.get? p = some k := by simpa [List.get?] using hp
      have h1'' : ¬ (k = t ∨ k ∈ ts.take p) := by
        simpa [List.take, List.mem_cons] using h1
      have ht : k ≠ t := fun hh => h1'' (Or.inl hh)
      have h1' : k ∉ ts.take p := fun hh => h1'' (Or.inr hh)
      have h2' : k ∉ ts.drop (p + 1) := by simpa [List.drop] using h2
      simp only [appendPure]
      rw [ih p (j0 + 1) _ hp' h1' h2', dictGet?_dictAppend, if_neg ht]
      have harith : j0 + 1 + p = j0 + (p + 1) := by omega
      rw [harith]

/-- When the row supplies at least `j0 + ts.length` fields, the append
loop succeeds and computes its pure version. -/
theorem appendRowAux_ok (items : List String) (ts : List String) :
    ∀ j0 d, j0 + ts.length ≤ items.length →
      appendRowAux d items ts j0 = .ok (appendPure items d ts j0) := by
  induction ts with
  | nil => intro j0 d _; rfl
  | cons t ts ih =>
    intro j0 d h
    have hj : j0 < items.length := by simp at h; omega
    have hget : items.get? j0 = some (items.getD j0 "") := by
      rw [List.getD_eq_get?]
      cases hx : items.get? j0 with
      | none => exact absurd (List.get?_eq_none.mp hx) (by omega)
      | some v => rfl
    simp only [appendRowAux, appendPure, hget]
    exact ih (j0 + 1) _ (by simp at h ⊢; omega)

/-- When the row supplies fewer than `j0 + ts.length` fields (and there
is at least one title left), the append loop raises `IndexError`. -/
theorem appendRowAux_err (items : List String) (ts : List String) :
    ∀ j0 d, ts ≠ [] → items.length < j0 + ts.length →
      appendRowAux d items ts j0 = .error .indexError := by
  induction ts with
  | nil => intro j0 d hne _; exact absurd rfl hne
  | cons t ts ih =>
    intro j0 d _ h
    by_cases hj : j0 < items.length
    · have hget : items.get? j0 = some (items.getD j0 "") := by
        rw [List.getD_eq_get?]
        cases hx : items.get? j0 with
        | none => exact absurd (List.get?_eq_none.mp hx) (by omega)
        | some v => rfl
      have hne' : ts ≠ [] := by
        intro hh
        subst hh
        simp at h
        omega
      simp only [appendRowAux, hget]
      exact ih (j0 + 1) _ hne' (by simp at h ⊢; omega)
    · have hget : items.get? j0 = none := List.get?_eq_none.mpr (by omega)
      simp only [appendRowAux, hget]

/-- The pure (exception-free) version of `parse_ephemeris_data`. -/
def parsePure (titles : List String) : List String → Dict → Dict
  | [], d => d
  | row :: rows, d => parsePure titles rows (appendPure (processRow row) d titles 0)

/-- When every row supplies at least as many processed fields as there
are titles, parsing succeeds and computes its pure version. -/
theorem parse_ok (titles : List String) :
    ∀ rows d, (∀ r ∈ rows, titles.length ≤ (processRow r).length) →
      parse_ephemeris_data titles rows d = .ok (parsePure titles rows d) := by
  intro rows
  induction rows with
  | nil => intro d _; rfl
  | cons row rows ih =>
    intro d h
    have hrow : titles.length ≤ (processRow row).length :=
      h row (List.mem_cons_self row rows)
    simp only [parse_ephemeris_data, parsePure,
      appendRowAux_ok (processRow row) titles 0 d (by omega)]
    exact ih _ (fun r hr => h r (List.mem_cons_of_mem row hr))

/-- When some row supplies fewer processed fields than there are
titles, parsing raises `IndexError`. -/
theorem parse_err (titles : List String) :
    ∀ rows d, (∃ r ∈ rows, (processRow r).length < titles.length) →
      parse_ephemeris_data titles rows d = .error .indexError := by
  intro rows
  induction rows with
  | nil => intro d h; simp at h
  | cons row rows ih =>
    intro d h
    by_cases hrow : (processRow row).length < titles.length
    · have hne : titles ≠ [] := by
        intro hh
        rw [hh] at hrow
        simp at hrow
      simp only [parse_ephemeris_data,
        appendRowAux_err (processRow row) titles 0 d hne (by omega)]
    · have hok : titles.length ≤ (processRow row).length := by omega
      obtain ⟨r, hr, hlt⟩ := h
      have hr' : r ∈ rows := by
        rcases List.mem_cons.mp hr with h1 | h1
        · subst h1; omega
        · exact h1
      simp only [parse_ephemeris_data,
        appendRowAux_ok (processRow row) titles 0 d (by omega)]
      exact ih _ ⟨r, hr', hlt⟩

/-- Success characterization of parsing: an `ok` result means every row
supplied enough fields, and the result is the pure parse. -/
theorem parse_ok_inv (titles : List String) (rows : List String) (d d' : Dict)
    (h : parse_ephemeris_data titles rows d = .ok d') :
    (∀ r ∈ rows, titles.length ≤ (processRow r).length) ∧ d' = parsePure titles rows d := by
  by_cases hall : ∀ r ∈ rows, titles.length ≤ (processRow r).length
  · rw [parse_ok titles rows d hall] at h
    exact ⟨hall, (Except.ok.inj h).symm⟩
  · push_neg at hall
    obtain ⟨r, hr, hlt⟩ := hall
    rw [parse_err titles rows d ⟨r, hr, hlt⟩] at h
    exact absurd h (by simp)

/-- Lookup of a title with a unique position in the titles after pure
parsing, starting from a dict that already binds the title. -/
theorem parsePure_get (titles : List String) (p : Nat) (k : String)
    (hp : titles.get? p = some k) (h1 : k ∉ titles.take p) (h2 : k ∉ titles.drop (p + 1)) :
    ∀ rows d l, dictGet? d k = some l →
      dictGet? (parsePure titles rows d) k =
        some (l ++ rows.map (fun r => (processRow r).getD p "")) := by
  intro rows
  induction rows with
  | nil => intro d l hl; simpa [parsePure] using hl
  | cons row rows ih =>
    intro d l hl
    have hstep := appendPure_get (processRow row) titles k p 0 d hp h1 h2
    rw [hl] at hstep
    simp only [Option.getD_some, Nat.zero_add] at hstep
    simp only [parsePure]
    rw [ih _ _ hstep]
    simp

/-- Lookup of a title with a unique position after pure parsing from
the empty dict: `none` for no rows, otherwise the positional column. -/
theorem parsePure_get_empty (titles : List String) (p : Nat) (k : String)
    (hp : titles.get? p = some k) (h1 : k ∉ titles.take p) (h2 : k ∉ titles.drop (p + 1))
    (rows : List String) :
    dictGet? (parsePure titles rows []) k =
      if rows.isEmpty then none
      else some (rows.map (fun r => (processRow r).getD p "")) := by
  cases rows with
  | nil => rfl
  | cons row rows =>
    have hstep := appendPure_get (processRow row) titles k p 0 [] hp h1 h2
    simp only [dictGet?, Option.getD_none, List.nil_append, Nat.zero_add] at hstep
    simp only [parsePure, List.isEmpty_cons]
    rw [parsePure_get titles p k hp h1 h2 rows _ _ hstep]
    simp

/-- Python `l.index` raises `ValueError` exactly on a missing element. -/
theorem pyIndex_not_mem (x : String) (l : List String) (h : x ∉ l) :
    pyIndex x l = .error .valueError := by
  induction l with
  | nil => rfl
  | cons y ys ih =>
    have hy : ¬ y = x := fun hh => h (hh ▸ List.mem_cons_self y ys)
    have hys : x ∉ ys := fun hh => h (List.mem_cons_of_mem y hh)
    simp only [pyIndex, if_neg hy, ih hys]
    rfl

/-- A successful Python `l.index(x)` points at an occurrence of `x`. -/
theorem pyIndex_ok (x : String) (l : List String) :
    ∀ i, pyIndex x l = .ok i → l.get? i = some x := by
  induction l with
  | nil => intro i h; simp [pyIndex] at h
  | cons y ys ih =>
    intro i h
    by_cases hy : y = x
    · simp only [pyIndex, if_pos hy] at h
      obtain rfl := Except.ok.inj h
      simp [List.get?, hy]
    · simp only [pyIndex, if_neg hy, Except.map] at h
      cases hx : pyIndex x ys with
      | error e => rw [hx] at h; simp at h
      | ok i' =>
        rw [hx] at h
        simp at h
        obtain rfl := h.symm
        simpa [List.get?] using ih i' hx

/-- A successful Python `l.index(x)` returns the index of the first
occurrence: every earlier position holds a different element. -/
theorem pyIndex_first (x : String) (l : List String) :
    ∀ i, pyIndex x l = .ok i → ∀ q, q < i → l.get? q ≠ some x := by
  induction l with
  | nil => intro i h; simp [pyIndex] at h
  | cons y ys ih =>
    intro i h q hq
    by_cases hy : y = x
    · simp only [pyIndex, if_pos hy] at h
      obtain rfl := Except.ok.inj h
      omega
    · simp only [pyIndex, if_neg hy, Except.map] at h
      cases hx : pyIndex x ys with
      | error e => rw [hx] at h; simp at h
      | ok i' =>
        rw [hx] at h
        simp at h
        obtain rfl := h.symm
        cases q with
        | zero => simpa [List.get?] using hy
        | succ q => simpa [List.get?] using ih i' hx q (by omega)

/-- Python `l.index(x)` succeeds on a present element. -/
theorem pyIndex_mem (x : String) (l : List String) (h : x ∈ l) :
    ∃ i, pyIndex x l = .ok i := by
  induction l with
  | nil => simp at h
  | cons y ys ih =>
    by_cases hy : y = x
    · exact ⟨0, by simp [pyIndex, hy]⟩
    · have hys : x ∈ ys := by
        rcases List.mem_cons.mp h with h1 | h1
        · exact absurd h1.symm hy
        · exact h1
      obtain ⟨i, hi⟩ := ih hys
      exact ⟨i + 1, by simp [pyIndex, hy, hi, Except.map]⟩

/-- A found index is within the list. -/
theorem pyIndex_lt (x : String) (l : List String) (i : Nat)
    (h : pyIndex x l = .ok i) : i < l.length := by
  have := pyIndex_ok x l i h
  by_cases hi : i < l.length
  · exact hi
  · rw [List.get?_eq_none.mpr (by omega)] at this
    cases this

/-- In a duplicate-free list, the element at position `p` occurs
neither strictly before nor strictly after `p`. -/
theorem nodup_take_drop {l : List String} (hnd : l.Nodup) :
    ∀ {p : Nat} {k : String}, l.get? p = some k → k ∉ l.take p ∧ k ∉ l.drop (p + 1) := by
  induction l with
  | nil => intro p k hp; simp [List.get?] at hp
  | cons a l ih =>
    intro p k hp
    obtain ⟨ha, hl⟩ := List.nodup_cons.mp hnd
    cases p with
    | zero =>
      have hk : a = k := by simpa [List.get?] using hp
      exact ⟨by simp, by simpa [List.drop, hk.symm] using ha⟩
    | succ p =>
      have hp' : l.get? p = some k := by simpa [List.get?] using hp
      have hkl : k ∈ l := List.get?_mem hp'
      have hka : k ≠ a := fun hh => ha (hh ▸ hkl)
      obtain ⟨h1, h2⟩ := ih hl hp'
      constructor
      · simp only [List.take, List.mem_cons]
        rintro (hh | hh)
        · exact hka hh
        · exact h1 hh
      · simpa [List.drop] using h2

/-- Every member of a list sits at some index. -/
theorem mem_get? {l : List String} {a : String} (h : a ∈ l) :
    ∃ p, l.get? p = some a := by
  induction l with
  | nil => simp at h
  | cons b l ih =>
    rcases List.mem_cons.mp h with h1 | h1
    · exact ⟨0, by simp [List.get?, h1.symm]⟩
    · obtain ⟨p, hp⟩ := ih h1
      exact ⟨p + 1, by simpa [List.get?] using hp⟩

/-- An `orElseErr` succeeds exactly on a `some`. -/
theorem orElseErr_ok {α : Type} {o : Option α} {e : PyError} {a : α} :
    orElseErr o e = .ok a ↔ o = some a := by
  cases o <;> simp [orElseErr]

/-- Inversion of a successful `clean_ephemeris_data`: how the data
entries and titles are computed from the raw text. -/
theorem clean_ok_inv {raw : String} {pr : List String × List String}
    (h : clean_ephemeris_data raw = .ok pr) :
    ∃ i j titleLine,
      pyIndex "$$SOE" (pySplit raw '\n') = .ok i ∧
      pyGet? (pySplit raw '\n') ((i : Int) - 2) = some titleLine ∧
      pyIndex "$$EOE" (pySplit raw '\n') = .ok j ∧
      pr.1 = ((pySplit raw '\n').drop (i + 1)).take (j - (i + 1)) ∧
      pr.2 = ((pySplit titleLine ',').map stripSpaces).filter (fun t => t ≠ "") := by
  simp only [clean_ephemeris_data, bind, Except.bind] at h
  split at h
  · exact Except.noConfusion h
  next i hi =>
    split at h
    · exact Except.noConfusion h
    next titleLine hg =>
      split at h
      · exact Except.noConfusion h
      next j hj =>
        simp only [pure, Except.pure] at h
        obtain rfl := (Except.ok.inj h).symm
        exact ⟨i, j, titleLine, hi, orElseErr_ok.mp hg, hj, rfl, rfl⟩

/-- Forward computation of `clean_ephemeris_data` from the positions of
the sentinels and the title line. -/
theorem clean_ok_fwd {raw : String} {i j : Nat} {titleLine : String}
    (hi : pyIndex "$$SOE" (pySplit raw '\n') = .ok i)
    (hg : pyGet? (pySplit raw '\n') ((i : Int) - 2) = some titleLine)
    (hj : pyIndex "$$EOE" (pySplit raw '\n') = .ok j) :
    clean_ephemeris_data raw =
      .ok (((pySplit raw '\n').drop (i + 1)).take (j - (i + 1)),
           ((pySplit titleLine ',').map stripSpaces).filter (fun t => t ≠ "")) := by
  simp only [clean_ephemeris_data, bind, Except.bind, hi, hg, orElseErr, hj, pure, Except.pure]

/-- Inversion of a successful table construction: the fields of the
table are exactly the cleaning and pure-parsing results, and every data
row supplied at least as many processed fields as there are titles. -/
theorem construct_ok_inv {raw : String} {e : Ephemeris}
    (h : Ephemeris.construct raw = .ok e) :
    clean_ephemeris_data raw = .ok (e.DATA_ENTRIES, e.DATA_TITLES) ∧
    (∀ r ∈ e.DATA_ENTRIES, e.DATA_TITLES.length ≤ (processRow r).length) ∧
    e.PARSED_DATA = parsePure e.DATA_TITLES e.DATA_ENTRIES [] := by
  simp only [Ephemeris.construct] at h
  split at h
  · exact Except.noConfusion h
  next entries titles hc =>
    split at h
    · exact Except.noConfusion h
    next parsed hp =>
      obtain rfl := (Except.ok.inj h).symm
      obtain ⟨hall, hpd⟩ := parse_ok_inv titles entries [] parsed hp
      exact ⟨hc, hall, hpd⟩

/-- The central column characterization: in a successfully constructed
table with duplicate-free titles, the parsed dict maps the title at
position `p` to the positional column over the data rows (and holds no
entry at all when there are no data rows). -/
theorem ephemeris_column {raw : String} {e : Ephemeris}
    (h : Ephemeris.construct raw = .ok e) (hnd : e.DATA_TITLES.Nodup)
    {p : Nat} {t : String} (hp : e.DATA_TITLES.get? p = some t) :
    dictGet? e.PARSED_DATA t =
      if e.DATA_ENTRIES.isEmpty then none
      else some (e.DATA_ENTRIES.map (fun r => (processRow r).getD p "")) := by
  obtain ⟨_, _, hpd⟩ := construct_ok_inv h
  obtain ⟨h1, h2⟩ := nodup_take_drop hnd hp
  rw [hpd]
  exact parsePure_get_empty e.DATA_TITLES p t hp h1 h2 e.DATA_ENTRIES

/-- A failing clean propagates to a failing construction. -/
theorem construct_err {raw : String} {err : PyError}
    (h : clean_ephemeris_data raw = .error err) :
    Ephemeris.construct raw = .error err := by
  simp only [Ephemeris.construct, h]

/-- Cleaning fails outright when either sentinel line is missing. -/
theorem clean_missing_sentinel (raw : String)
    (h : "$$SOE" ∉ pySplit raw '\n' ∨ "$$EOE" ∉ pySplit raw '\n') :
    ∃ err, clean_ephemeris_data raw = .error err := by
  rcases h with h | h
  · exact ⟨.valueError,
      by simp only [clean_ephemeris_data, bind, Except.bind, pyIndex_not_mem _ _ h]⟩
  · cases hi : pyIndex "$$SOE" (pySplit raw '\n') with
    | error e =>
      exact ⟨e, by simp only [clean_ephemeris_data, bind, Except.bind, hi]⟩
    | ok i =>
      cases hg : pyGet? (pySplit raw '\n') ((i : Int) - 2) with
      | none =>
        exact ⟨.indexError,
          by simp only [clean_ephemeris_data, bind, Except.bind, hi, hg, orElseErr]⟩
      | some t =>
        exact ⟨.valueError,
          by simp only [clean_ephemeris_data, bind, Except.bind, hi, hg, orElseErr,
            pyIndex_not_mem _ _ h]⟩

/-! ## Claim C5 -/

/-- C5: for every raw input text, table construction fails with an
exception — producing no table — whenever the start sentinel line
`$$SOE` or the end sentinel line `$$EOE` is missing from the text's
lines; a missing start sentinel fails with the `list.index` lookup
error (the source's MalformedResponse-style failure). -/
theorem C5_missing_sentinel_fails (raw : String)
    (h : "$$SOE" ∉ pySplit raw '\n' ∨ "$$EOE" ∉ pySplit raw '\n') :
    (∃ err, Ephemeris.construct raw = .error err) ∧
      ("$$SOE" ∉ pySplit raw '\n' → Ephemeris.construct raw = .error .valueError) := by
  constructor
  · obtain ⟨err, herr⟩ := clean_missing_sentinel raw h
    exact ⟨err, construct_err herr⟩
  · intro hs
    exact construct_err
      (by simp only [clean_ephemeris_data, bind, Except.bind, pyIndex_not_mem _ _ hs])

/-- Witness for C5 at the concrete input "hello" (no sentinels). -/
theorem C5_missing_sentinel_fails_witness :
    ("$$SOE" ∉ pySplit "hello" '\n' ∨ "$$EOE" ∉ pySplit "hello" '\n') ∧
      (∃ err, Ephemeris.construct "hello" = .error err) :=
  ⟨Or.inl (by decide),
   (C5_missing_sentinel_fails "hello" (Or.inl (by decide))).1⟩

/-! ## Claim C6 -/

/-- Python whitespace as recognized by `str.strip()` with no argument. -/
def isPyWhitespace (c : Char) : Bool :=
  c = ' ' || c = '\t' || c = '\n' || c = '\x0b' || c = '\x0c' || c = '\r'

/-- Modelled from the spec: trim surrounding whitespace (all of it, not
just spaces) from a token — the claim's stated field/token trimming. -/
def claimTrim (s : String) : String :=
  String.mk (((s.data.dropWhile (fun c => isPyWhitespace c)).reverse.dropWhile
    (fun c => isPyWhitespace c)).reverse)

/-- Modelled from the spec (claim C6): split the title line on the
comma, trim surrounding whitespace from each token, drop empty tokens. -/
def claimTitlesC6 (titleLine : String) : List String :=
  ((pySplit titleLine ',').map claimTrim).filter (fun t => t ≠ "")

/-- Counterexample to C6 as stated: on a title line containing a tab,
the source's space-only `strip(' ')` keeps the tab, while the claim's
whitespace trimming would remove it.  The raw text below has its title
line two positions before `$$SOE` as required, yet the parsed titles
differ from the claim's whitespace-trimmed titles. -/
theorem C6_counterexample :
    clean_ephemeris_data "\tA, B\nx\n$$SOE\n$$EOE" = .ok ([], ["\tA", "B"]) ∧
    claimTitlesC6 "\tA, B" = ["A", "B"] ∧
    (["\tA", "B"] : List String) ≠ (["A", "B"] : List String) := by
  refine ⟨by rfl, by rfl, by decide⟩

/-- C6 (amended): for every raw text in which the first `$$SOE` line
sits at index at least 2 (so a title line genuinely exists two positions
above it — for smaller indices the source wraps around to the end of
the list) and which contains a `$$EOE` line, cleaning succeeds and the
column titles are obtained from the line exactly two positions before
the start sentinel by splitting on the comma, trimming surrounding
space characters (only spaces — not all whitespace) from each token and
dropping empty tokens; moreover the title count fixes the per-row field
count: any successfully constructed table has at least that many
processed fields in every data row. -/
theorem C6_title_line (raw : String) (i j : Nat)
    (hi : pyIndex "$$SOE" (pySplit raw '\n') = .ok i)
    (h2 : 2 ≤ i)
    (hj : pyIndex "$$EOE" (pySplit raw '\n') = .ok j) :
    clean_ephemeris_data raw =
      .ok (((pySplit raw '\n').drop (i + 1)).take (j - (i + 1)),
        ((pySplit ((pySplit raw '\n').getD (i - 2) "") ',').map stripSpaces).filter
          (fun t => t ≠ "")) ∧
    (∀ e, Ephemeris.construct raw = .ok e →
      ∀ r ∈ e.DATA_ENTRIES, e.DATA_TITLES.length ≤ (processRow r).length) := by
  have hlt : i < (pySplit raw '\n').length := pyIndex_lt _ _ _ hi
  have hnn : (0 : Int) ≤ (i : Int) - 2 := by omega
  have htn : ((i : Int) - 2).toNat = i - 2 := by omega
  have hg : pyGet? (pySplit raw '\n') ((i : Int) - 2) =
      some ((pySplit raw '\n').getD (i - 2) "") := by
    simp only [pyGet?, if_pos hnn, htn]
    rw [List.getD_eq_get?]
    cases hx : (pySplit raw '\n').get? (i - 2) with
    | none => exact absurd (List.get?_eq_none.mp hx) (by omega)
    | some v => rfl
  refine ⟨clean_ok_fwd hi hg hj, ?_⟩
  intro e he r hr
  exact (construct_ok_inv he).2.1 r hr

/-- Witness for C6 (amended) at a concrete raw text with the start
sentinel at line index 2. -/
theorem C6_title_line_witness :
    pyIndex "$$SOE" (pySplit "Aa , Bb\nheader\n$$SOE\n$$EOE" '\n') = .ok 2 ∧
    clean_ephemeris_data "Aa , Bb\nheader\n$$SOE\n$$EOE" = .ok ([], ["Aa", "Bb"]) := by
  constructor
  · rfl
  · have h := (C6_title_line "Aa , Bb\nheader\n$$SOE\n$$EOE" 2 3 (by rfl) (by omega) (by rfl)).1
    rw [h]
    rfl

/-! ## Claim C2 -/

/-- Whether some catalog entry's marker matches the response. -/
theorem firstFault_isSome (r : String) (L : List (String × String)) :
    (firstFault r L).isSome = true ↔ ∃ pr ∈ L, containsSub r pr.1 = true := by
  induction L with
  | nil => simp [firstFault]
  | cons pr rest ih =>
    obtain ⟨m, msg⟩ := pr
    by_cases h : containsSub r m = true
    · constructor
      · intro _
        exact ⟨(m, msg), List.mem_cons_self _ _, h⟩
      · intro _
        simp [firstFault, if_pos h]
    · simp only [firstFault, if_neg h]
      rw [ih]
      constructor
      · rintro ⟨q, hq, hqc⟩
        exact ⟨q, List.mem_cons_of_mem _ hq, hqc⟩
      · rintro ⟨q, hq, hqc⟩
        rcases List.mem_cons.mp hq with h1 | h1
        · rw [h1] at hqc
          exact absurd hqc h
        · exact ⟨q, h1, hqc⟩

set_option maxHeartbeats 4000000 in
/-- The sequential fault scan of the source equals the first-match scan
over the ordered catalog. -/
theorem validate_eq_firstFault (r : String) :
    validate_ephemeris_data r =
      (match firstFault r JPL_FAULT_CATALOG with
       | some msg => .error (.systemError msg)
       | none => .ok ()) := by
  unfold validate_ephemeris_data firstFault JPL_FAULT_CATALOG
  split_ifs <;> simp_all [firstFault]

/-- C2: for every response body, fetch fails with a `SystemError`
(RemoteServiceFault) if and only if the body contains one of the eleven
catalogued fault substrings; the failure carries the explanation of the
first matching marker in catalog order; when no marker matches the
response text is returned unchanged; and a failing fetch aborts
`Ephemeris.__init__` with that same error, before any cleaning or
parsing of the body. -/
theorem C2_fault_scan :
    (∀ r : String,
      get_jpl_ephemeris_onResponse r =
        (match firstFault r JPL_FAULT_CATALOG with
         | some msg => .error (.systemError msg)
         | none => .ok r)) ∧
    (∀ r : String,
      (∃ pr ∈ JPL_FAULT_CATALOG, containsSub r pr.1 = true) ↔
        (∃ msg, get_jpl_ephemeris_onResponse r = .error (.systemError msg))) ∧
    JPL_FAULT_CATALOG.length = 11 ∧
    (JPL_FAULT_CATALOG.map (fun pr => pr.2)).Nodup ∧
    (∀ r e, get_jpl_ephemeris_onResponse r = .error e → Ephemeris.init r = .error e) := by
  have hmain : ∀ r : String,
      get_jpl_ephemeris_onResponse r =
        (match firstFault r JPL_FAULT_CATALOG with
         | some msg => .error (.systemError msg)
         | none => .ok r) := by
    intro r
    simp only [get_jpl_ephemeris_onResponse, validate_eq_firstFault r]
    cases firstFault r JPL_FAULT_CATALOG <;> rfl
  refine ⟨hmain, ?_, rfl, by decide, ?_⟩
  · intro r
    rw [← firstFault_isSome r JPL_FAULT_CATALOG]
    constructor
    · intro hs
      cases hf : firstFault r JPL_FAULT_CATALOG with
      | none => rw [hf] at hs; cases hs
      | some msg => exact ⟨msg, by rw [hmain r, hf]⟩
    · rintro ⟨msg, hmsg⟩
      rw [hmain r] at hmsg
      cases hf : firstFault r JPL_FAULT_CATALOG with
      | none => rw [hf] at hmsg; cases hmsg
      | some m => rfl
  · intro r e he
    simp only [Ephemeris.init, he]

/-- Witness for C2 at the concrete response body "No matches found.":
fetch fails with the marker-specific explanation. -/
theorem C2_fault_scan_witness :
    get_jpl_ephemeris_onResponse "No matches found." =
      .error (.systemError (jplFaultPreamble ++
        "\x27No matches found.\x27 Verify matching \x27Target Body\x27 here: https://ssd.jpl.nasa.gov/horizons/app.html#/")) := by
  rw [C2_fault_scan.1 "No matches found."]
  rfl

/-! ## Claim C1 -/

/-- Modelled from the spec (claim C1): process a data row by splitting
on the comma, trimming surrounding whitespace (not just spaces) from
each field, and dropping fields equal to a noise token. -/
def claimProcessRowC1 (row : String) : List String :=
  ((pySplit row ',').map claimTrim).filter (fun t => t ∉ ILLEGAL_CHARACTER_FROM_JPL)

/-- Counterexample to C1 as stated: a field carrying a leading tab
survives the source's space-only trimming (and therefore escapes noise
removal), while the claim's whitespace trimming would reduce it to the
noise token "m" and drop it, shifting every later field.  Column "A"
of the parsed table is `["\tm"]`, not the `["x"]` the claim predicts. -/
theorem C1_counterexample :
    Ephemeris.construct "A, B\n\n$$SOE\n\tm, x, y\n$$EOE" =
      .ok ⟨["\tm, x, y"], ["A", "B"], [("A", ["\tm"]), ("B", ["x"])]⟩ ∧
    processRow "\tm, x, y" = ["\tm", "x", "y"] ∧
    claimProcessRowC1 "\tm, x, y" = ["x", "y"] ∧
    dictGet? [("A", ["\tm"]), ("B", ["x"])] "A" = some ["\tm"] ∧
    (some ["\tm"] : Option (List String)) ≠ some ["x"] := by
  refine ⟨by rfl, by rfl, by rfl, by rfl, by decide⟩

/-- C1 (amended): for every successfully constructed table whose parsed
column titles are pairwise distinct, the data rows are exactly the
lines strictly between the first `$$SOE` line and the first `$$EOE`
line, and the dict maps the title at position `p` to exactly the rows'
processed fields at position `p`, in row order (row `i` of the input is
index `i` of every column) — where a row is processed by splitting on
the comma, trimming surrounding space characters (only spaces, not all
whitespace) and dropping the noise tokens `C`, `m`, `N`, `A`, `*` and
the empty string. -/
theorem C1_parse_positional (raw : String) (e : Ephemeris)
    (h : Ephemeris.construct raw = .ok e) (hnd : e.DATA_TITLES.Nodup) :
    (∃ i j, pyIndex "$$SOE" (pySplit raw '\n') = .ok i ∧
            pyIndex "$$EOE" (pySplit raw '\n') = .ok j ∧
            e.DATA_ENTRIES = ((pySplit raw '\n').drop (i + 1)).take (j - (i + 1))) ∧
    (∀ p t, e.DATA_TITLES.get? p = some t →
      dictGet? e.PARSED_DATA t =
        if e.DATA_ENTRIES.isEmpty then none
        else some (e.DATA_ENTRIES.map (fun r => (processRow r).getD p ""))) := by
  obtain ⟨hc, hall, hpd⟩ := construct_ok_inv h
  obtain ⟨i, j, titleLine, hi, hg, hj, h1, h2⟩ := clean_ok_inv hc
  refine ⟨⟨i, j, hi, hj, h1⟩, ?_⟩
  intro p t hp
  exact ephemeris_column h hnd hp

/-- Witness for C1 (amended) at a concrete two-column, one-row input. -/
theorem C1_parse_positional_witness :
    Ephemeris.construct "A, B\n\n$$SOE\n x , y \n$$EOE" =
      .ok ⟨[" x , y "], ["A", "B"], [("A", ["x"]), ("B", ["y"])]⟩ ∧
    dictGet? [("A", ["x"]), ("B", ["y"])] "A" = some ["x"] := by
  have h : Ephemeris.construct "A, B\n\n$$SOE\n x , y \n$$EOE" =
      .ok ⟨[" x , y "], ["A", "B"], [("A", ["x"]), ("B", ["y"])]⟩ := by rfl
  have h2 := (C1_parse_positional _ _ h (by decide)).2 0 "A" (by rfl)
  exact ⟨h, h2.trans (by rfl)⟩

/-! ## Claim C3 -/

/-- Counterexample to C3 as stated: with duplicated column titles
(titles `A, A` and the single data row `x, y`), the defaultdict merges
both positions under the one key `A`, whose value list has length 2
while the table has exactly 1 data row. -/
theorem C3_counterexample :
    Ephemeris.construct "A, A\n\n$$SOE\nx, y\n$$EOE" =
      .ok ⟨["x, y"], ["A", "A"], [("A", ["x", "y"])]⟩ ∧
    (["x, y"] : List String).length = 1 ∧
    dictGet? [("A", ["x", "y"])] "A" = some ["x", "y"] ∧
    (["x", "y"] : List String).length ≠ 1 := by
  refine ⟨by rfl, by rfl, by rfl, by decide⟩

/-- C3 (amended): for every successfully constructed table with
pairwise-distinct parsed titles and at least one data row, every parsed
column title maps to a value list whose length is exactly the number of
data rows between the sentinels.  (With zero data rows the dict stores
no entry at all — see C7 — and with duplicated titles the shared entry
grows once per duplicate per row.)  Post-construction immutability is
inherent in the embedding: all accessors are pure functions of the
constructed table. -/
theorem C3_column_lengths (raw : String) (e : Ephemeris)
    (h : Ephemeris.construct raw = .ok e) (hnd : e.DATA_TITLES.Nodup)
    (hne : e.DATA_ENTRIES ≠ []) :
    ∀ t ∈ e.DATA_TITLES, ∃ l, dictGet? e.PARSED_DATA t = some l ∧
      l.length = e.DATA_ENTRIES.length := by
  intro t ht
  obtain ⟨p, hp⟩ := mem_get? ht
  have hcol := ephemeris_column h hnd hp
  rw [if_neg (by simpa [List.isEmpty_iff] using hne)] at hcol
  exact ⟨_, hcol, by simp⟩

/-- Witness for C3 (amended) at a concrete two-column, one-row input. -/
theorem C3_column_lengths_witness :
    Ephemeris.construct "A, B\n\n$$SOE\nx, y\n$$EOE" =
      .ok ⟨["x, y"], ["A", "B"], [("A", ["x"]), ("B", ["y"])]⟩ ∧
    (∃ l, dictGet? [("A", ["x"]), ("B", ["y"])] "A" = some l ∧
      l.length = (["x, y"] : List String).length) := by
  have h : Ephemeris.construct "A, B\n\n$$SOE\nx, y\n$$EOE" =
      .ok ⟨["x, y"], ["A", "B"], [("A", ["x"]), ("B", ["y"])]⟩ := by rfl
  exact ⟨h, C3_column_lengths _ _ h (by decide) (by decide) "A" (by decide)⟩

/-! ## Claim C7 -/

/-- Counterexample to C7 as stated: on a sentinel-delimited input with
zero data rows, the table constructs with title `T` but an empty dict,
and `get_ephemeris_data` on the parsed title `T` returns Python `None`
(`.ok none`), not the column's (empty) value sequence. -/
theorem C7_counterexample :
    Ephemeris.construct "T\n\n$$SOE\n$$EOE" = .ok ⟨[], ["T"], []⟩ ∧
    get_ephemeris_data ⟨[], ["T"], []⟩ "T" = .ok none ∧
    (.ok none : Except PyError (Option (List String))) ≠ .ok (some []) := by
  refine ⟨by rfl, by rfl, fun hh => Option.noConfusion (Except.ok.inj hh)⟩

/-- C7 (amended): for every successfully constructed table with
pairwise-distinct parsed titles, `get_ephemeris_data` fails with the
`SystemError` if and only if the requested title is not among the
parsed titles; on a parsed title it returns the column's ordered value
sequence when the table has at least one data row, and Python `None`
(not a sequence) when the table has zero data rows. -/
theorem C7_valuesFor (raw : String) (e : Ephemeris) (t : String)
    (h : Ephemeris.construct raw = .ok e) (hnd : e.DATA_TITLES.Nodup) :
    (get_ephemeris_data e t =
        .error (.systemError "Method argument must be an ephemeris data column title.")
      ↔ t ∉ e.DATA_TITLES) ∧
    (t ∈ e.DATA_TITLES → e.DATA_ENTRIES ≠ [] →
      ∃ p, e.DATA_TITLES.get? p = some t ∧
        get_ephemeris_data e t =
          .ok (some (e.DATA_ENTRIES.map (fun r => (processRow r).getD p "")))) ∧
    (t ∈ e.DATA_TITLES → e.DATA_ENTRIES = [] → get_ephemeris_data e t = .ok none) := by
  refine ⟨?_, ?_, ?_⟩
  · constructor
    · intro herr hmem
      simp only [get_ephemeris_data, if_pos hmem] at herr
      exact Except.noConfusion herr
    · intro hmem
      simp only [get_ephemeris_data, if_neg hmem]
  · intro hmem hne
    obtain ⟨p, hp⟩ := mem_get? hmem
    have hcol := ephemeris_column h hnd hp
    rw [if_neg (by simpa [List.isEmpty_iff] using hne)] at hcol
    refine ⟨p, hp, ?_⟩
    simp only [get_ephemeris_data, if_pos hmem, hcol]
  · intro hmem hnil
    obtain ⟨p, hp⟩ := mem_get? hmem
    have hcol := ephemeris_column h hnd hp
    rw [if_pos (by simp [hnil])] at hcol
    simp only [get_ephemeris_data, if_pos hmem, hcol]

/-- Witness for C7 (amended): the unknown title "foo" fails with the
`SystemError`, and the parsed title "A" returns its column. -/
theorem C7_valuesFor_witness :
    Ephemeris.construct "A, B\n\n$$SOE\nu, v\n$$EOE" =
      .ok ⟨["u, v"], ["A", "B"], [("A", ["u"]), ("B", ["v"])]⟩ ∧
    get_ephemeris_data ⟨["u, v"], ["A", "B"], [("A", ["u"]), ("B", ["v"])]⟩ "foo" =
      .error (.systemError "Method argument must be an ephemeris data column title.") ∧
    get_ephemeris_data ⟨["u, v"], ["A", "B"], [("A", ["u"]), ("B", ["v"])]⟩ "A" =
      .ok (some ["u"]) := by
  have h : Ephemeris.construct "A, B\n\n$$SOE\nu, v\n$$EOE" =
      .ok ⟨["u, v"], ["A", "B"], [("A", ["u"]), ("B", ["v"])]⟩ := by rfl
  refine ⟨h, ?_, ?_⟩
  · exact (C7_valuesFor _ _ "foo" h (by decide)).1.mpr (by decide)
  · obtain ⟨p, hp, hval⟩ := (C7_valuesFor _ _ "A" h (by decide)).2.1 (by decide) (by decide)
    have hp0 : p = 0 := by
      rcases p with _ | _ | p
      · rfl
      · exact absurd hp (by decide)
      · exact absurd hp (by
          simp [List.get?])
    subst hp0
    exact hval.trans (by rfl)

/-! ## Claim C8 -/

/-- C8: `dates` is literally `get_ephemeris_data` at the fixed exact
title `Date__(UT)__HR:MN:SS`, and consequently fails with the
`SystemError` on any table whose parsed titles do not contain that
exact string. -/
theorem C8_dates_def (e : Ephemeris) :
    e.dates = get_ephemeris_data e "Date__(UT)__HR:MN:SS" ∧
    ("Date__(UT)__HR:MN:SS" ∉ e.DATA_TITLES →
      e.dates = .error (.systemError "Method argument must be an ephemeris data column title.")) := by
  refine ⟨rfl, ?_⟩
  intro hmem
  simp only [Ephemeris.dates, get_ephemeris_data, if_neg hmem]

/-- Witness for C8 at a concrete table without the date column. -/
theorem C8_dates_def_witness :
    ("Date__(UT)__HR:MN:SS" ∉ (["A", "B"] : List String)) ∧
    Ephemeris.dates ⟨[], ["A", "B"], []⟩ =
      .error (.systemError "Method argument must be an ephemeris data column title.") :=
  ⟨by decide, (C8_dates_def ⟨[], ["A", "B"], []⟩).2 (by decide)⟩

/-! ## Claim C4 -/

/-- Python `l.index(v)` under membership stays within the list. -/
theorem listIndex_lt_of_mem {v : String} {l : List String} (h : v ∈ l) :
    listIndex v l < l.length := by
  induction l with
  | nil => simp at h
  | cons y ys ih =>
    by_cases hy : y = v
    · simp [listIndex, hy]
    · have hys : v ∈ ys := by
        rcases List.mem_cons.mp h with h1 | h1
        · exact absurd h1.symm hy
        · exact h1
      simp only [listIndex, if_neg hy, List.length_cons]
      exact Nat.succ_lt_succ (ih hys)

/-- Python `l.index(v)` under membership finds `v`. -/
theorem listIndex_get? {v : String} {l : List String} (h : v ∈ l) :
    l.get? (listIndex v l) = some v := by
  induction l with
  | nil => simp at h
  | cons y ys ih =>
    by_cases hy : y = v
    · simp [listIndex, hy, List.get?]
    · have hys : v ∈ ys := by
        rcases List.mem_cons.mp h with h1 | h1
        · exact absurd h1.symm hy
        · exact h1
      simpa [listIndex, if_neg hy, List.get?] using ih hys

/-- Python `l.index(v)` is the first occurrence: every strictly earlier
position holds something else. -/
theorem listIndex_first (v : String) (l : List String) :
    ∀ q, q < listIndex v l → l.get? q ≠ some v := by
  induction l with
  | nil => intro q hq; simp [List.get?]
  | cons y ys ih =>
    intro q hq
    by_cases hy : y = v
    · simp [listIndex, hy] at hq
    · cases q with
      | zero => simpa [List.get?] using hy
      | succ q =>
        simp only [listIndex, if_neg hy] at hq
        simpa [List.get?] using ih q (by omega)

/-- Counterexample to C4 as stated: with duplicated titles `A, A, B`
and data row `x, y, z`, the merged column `A` is `["x", "y"]` and
column `B` is `["z"]`; `"y"` occurs in `valuesFor("A")` at index 1 and
`"B"` is a parsed title, so the claim promises the value of
`valuesFor("B")` at index 1 — but the code raises `IndexError`. -/
theorem C4_counterexample :
    Ephemeris.construct "A, A, B\n\n$$SOE\nx, y, z\n$$EOE" =
      .ok ⟨["x, y, z"], ["A", "A", "B"], [("A", ["x", "y"]), ("B", ["z"])]⟩ ∧
    ("y" ∈ (["x", "y"] : List String)) ∧
    find_corresponding_data ⟨["x, y, z"], ["A", "A", "B"], [("A", ["x", "y"]), ("B", ["z"])]⟩
      "B" "A" "y" = .error .indexError := by
  refine ⟨by rfl, by decide, by rfl⟩

/-- C4 (amended): for every successfully constructed table with
pairwise-distinct parsed titles and at least one data row, and every
parsed source title `S`: when `v` does not occur in the source column,
`find_corresponding_data` returns `.ok none` for every target title
(parsed or not, without raising); when `v` occurs and the target title
`T` is parsed, it returns the target column's entry at the first index
where the source column equals `v`. -/
theorem C4_correspond (raw : String) (e : Ephemeris) (S v : String)
    (h : Ephemeris.construct raw = .ok e) (hnd : e.DATA_TITLES.Nodup)
    (hne : e.DATA_ENTRIES ≠ []) (pS : Nat) (hS : e.DATA_TITLES.get? pS = some S) :
    ∃ sd, dictGet? e.PARSED_DATA S = some sd ∧ sd.length = e.DATA_ENTRIES.length ∧
      (v ∉ sd → ∀ T, find_corresponding_data e T S v = .ok none) ∧
      (v ∈ sd → ∀ T pT, e.DATA_TITLES.get? pT = some T →
        ∃ td, dictGet? e.PARSED_DATA T = some td ∧
          td.length = e.DATA_ENTRIES.length ∧
          find_corresponding_data e T S v = .ok (some (td.getD (listIndex v sd) "")) ∧
          sd.get? (listIndex v sd) = some v ∧
          (∀ q, q < listIndex v sd → sd.get? q ≠ some v)) := by
  have hSmem : S ∈ e.DATA_TITLES := List.get?_mem hS
  have hcolS := ephemeris_column h hnd hS
  rw [if_neg (by simpa [List.isEmpty_iff] using hne)] at hcolS
  refine ⟨_, hcolS, by simp, ?_, ?_⟩
  · intro hv T
    simp only [find_corresponding_data, bind, Except.bind, get_ephemeris_data,
      if_pos hSmem, hcolS, if_neg hv]
    rfl
  · intro hv T pT hT
    have hTmem : T ∈ e.DATA_TITLES := List.get?_mem hT
    have hcolT := ephemeris_column h hnd hT
    rw [if_neg (by simpa [List.isEmpty_iff] using hne)] at hcolT
    refine ⟨_, hcolT, by simp, ?_, listIndex_get? hv, listIndex_first v _⟩
    have hlt : listIndex v (e.DATA_ENTRIES.map (fun r => (processRow r).getD pS "")) <
        (e.DATA_ENTRIES.map (fun r => (processRow r).getD pT "")).length := by
      have := listIndex_lt_of_mem hv
      simp only [List.length_map] at this ⊢
      exact this
    have hget : (e.DATA_ENTRIES.map (fun r => (processRow r).getD pT "")).get?
        (listIndex v (e.DATA_ENTRIES.map (fun r => (processRow r).getD pS ""))) =
        some ((e.DATA_ENTRIES.map (fun r => (processRow r).getD pT "")).getD
          (listIndex v (e.DATA_ENTRIES.map (fun r => (processRow r).getD pS ""))) "") := by
      rw [List.getD_eq_get?]
      cases hx : (e.DATA_ENTRIES.map (fun r => (processRow r).getD pT "")).get?
          (listIndex v (e.DATA_ENTRIES.map (fun r => (processRow r).getD pS ""))) with
      | none => exact absurd (List.get?_eq_none.mp hx) (by omega)
      | some w => rfl
    simp only [find_corresponding_data, bind, Except.bind, get_ephemeris_data,
      if_pos hSmem, hcolS, if_pos hv, if_pos hTmem, hcolT, hget]
    rfl

/-- Witness for C4 (amended): on a concrete table, a missing source
value yields `.ok none` even for an unparsed target title. -/
theorem C4_correspond_witness :
    Ephemeris.construct "A, B\n\n$$SOE\nq, w\n$$EOE" =
      .ok ⟨["q, w"], ["A", "B"], [("A", ["q"]), ("B", ["w"])]⟩ ∧
    find_corresponding_data ⟨["q, w"], ["A", "B"], [("A", ["q"]), ("B", ["w"])]⟩
      "not-a-column" "A" "zz" = .ok none := by
  have h : Ephemeris.construct "A, B\n\n$$SOE\nq, w\n$$EOE" =
      .ok ⟨["q, w"], ["A", "B"], [("A", ["q"]), ("B", ["w"])]⟩ := by rfl
  obtain ⟨sd, hsd, _, hnone, _⟩ :=
    C4_correspond _ _ "A" "zz" h (by decide) (by decide) 0 (by rfl)
  have hsd' : sd = ["q"] := by
    have : (some sd : Option (List String)) = some ["q"] := by rw [← hsd]; rfl
    exact Option.some.inj this
  subst hsd'
  exact ⟨h, hnone (by decide) "not-a-column"⟩

/-! ## Claim C9 -/

/-- C9: for every successfully constructed table with pairwise-distinct
titles, at least one data row and a parsed date column, `dates` returns
exactly the rows' date fields in input order — no sorting or reordering
is performed — so whenever the source rows are chronologically
increasing (the defining property of a valid query's response, which
the remote service guarantees and the embedding takes as a hypothesis
on the input), the returned date sequence is strictly increasing under
that same chronological order `R`. -/
theorem C9_dates_chronological (raw : String) (e : Ephemeris)
    (h : Ephemeris.construct raw = .ok e) (hnd : e.DATA_TITLES.Nodup)
    (hne : e.DATA_ENTRIES ≠ []) (p : Nat)
    (hp : e.DATA_TITLES.get? p = some "Date__(UT)__HR:MN:SS")
    (R : String → String → Prop)
    (hchain : List.Chain' R (e.DATA_ENTRIES.map (fun r => (processRow r).getD p ""))) :
    ∃ ds, e.dates = .ok (some ds) ∧ List.Chain' R ds ∧
      ds = e.DATA_ENTRIES.map (fun r => (processRow r).getD p "") := by
  have hmem : "Date__(UT)__HR:MN:SS" ∈ e.DATA_TITLES := List.get?_mem hp
  have hcol := ephemeris_column h hnd hp
  rw [if_neg (by simpa [List.isEmpty_iff] using hne)] at hcol
  refine ⟨_, ?_, hchain, rfl⟩
  simp only [Ephemeris.dates, get_ephemeris_data, if_pos hmem, hcol]

/-- Witness for C9 at a concrete two-row response whose date fields are
pairwise related by the chosen order. -/
theorem C9_dates_chronological_witness :
    Ephemeris.construct
        "Date__(UT)__HR:MN:SS, V\n\n$$SOE\n2020-01-01 00:00:00, 1\n2020-01-02 00:00:00, 2\n$$EOE" =
      .ok ⟨["2020-01-01 00:00:00, 1", "2020-01-02 00:00:00, 2"],
           ["Date__(UT)__HR:MN:SS", "V"],
           [("Date__(UT)__HR:MN:SS", ["2020-01-01 00:00:00", "2020-01-02 00:00:00"]),
            ("V", ["1", "2"])]⟩ ∧
    (∃ ds, Ephemeris.dates
        ⟨["2020-01-01 00:00:00, 1", "2020-01-02 00:00:00, 2"],
         ["Date__(UT)__HR:MN:SS", "V"],
         [("Date__(UT)__HR:MN:SS", ["2020-01-01 00:00:00", "2020-01-02 00:00:00"]),
          ("V", ["1", "2"])]⟩ = .ok (some ds) ∧
      List.Chain' (fun a b : String => a ≠ b) ds) := by
  have h : Ephemeris.construct
      "Date__(UT)__HR:MN:SS, V\n\n$$SOE\n2020-01-01 00:00:00, 1\n2020-01-02 00:00:00, 2\n$$EOE" =
      .ok ⟨["2020-01-01 00:00:00, 1", "2020-01-02 00:00:00, 2"],
           ["Date__(UT)__HR:MN:SS", "V"],
           [("Date__(UT)__HR:MN:SS", ["2020-01-01 00:00:00", "2020-01-02 00:00:00"]),
            ("V", ["1", "2"])]⟩ := by rfl
  have hchain : List.Chain' (fun a b : String => a ≠ b)
      ((["2020-01-01 00:00:00, 1", "2020-01-02 00:00:00, 2"] : List String).map
        (fun r => (processRow r).getD 0 "")) := by
    have he : (["2020-01-01 00:00:00, 1", "2020-01-02 00:00:00, 2"] : List String).map
        (fun r => (processRow r).getD 0 "") =
        ["2020-01-01 00:00:00", "2020-01-02 00:00:00"] := by rfl
    rw [he]
    exact List.chain'_pair.mpr (by decide)
  obtain ⟨ds, hds, hch, _⟩ :=
    C9_dates_chronological _ _ h (by decide) (by decide) 0 (by rfl) _ hchain
  exact ⟨h, ds, hds, hch⟩

/-! ## Claim C10 -/

/-- Items agreeing below an index bound produce equal `getD` values
under `take`. -/
theorem getD_take_eq (l : List String) (L jj : Nat) (h : jj < L) :
    (l.take L).getD jj "" = l.getD jj "" := by
  rw [List.getD_eq_getElem?_getD, List.getD_eq_getElem?_getD, List.getElem?_take_of_lt h]

/-- The append loop only reads item positions `j0 ≤ jj < j0 + ts.length`:
two item lists agreeing there append identically. -/
theorem appendPure_congr (items items' : List String) (ts : List String) :
    ∀ j0 d, (∀ jj, j0 ≤ jj → jj < j0 + ts.length → items.getD jj "" = items'.getD jj "") →
      appendPure items d ts j0 = appendPure items' d ts j0 := by
  induction ts with
  | nil => intro j0 d _; rfl
  | cons t ts ih =>
    intro j0 d hagree
    simp only [appendPure]
    rw [hagree j0 (Nat.le_refl j0) (by simp only [List.length_cons]; omega)]
    exact ih (j0 + 1) _
      (fun jj h1 h2 => hagree jj (by omega) (by simp only [List.length_cons] at h2 ⊢; omega))

/-- Pure parsing only reads the first `titles.length` processed fields
of each row: row lists whose processed rows agree on that prefix parse
to the same dict. -/
theorem parsePure_congr (titles : List String) (rows rows' : List String)
    (hf : List.Forall₂ (fun r r' => (processRow r).take titles.length =
      (processRow r').take titles.length) rows rows') :
    ∀ d, parsePure titles rows d = parsePure titles rows' d := by
  induction hf with
  | nil => intro d; rfl
  | @cons a b l₁ l₂ h1 h2 ih =>
    intro d
    simp only [parsePure]
    have hagree : ∀ jj, 0 ≤ jj → jj < 0 + titles.length →
        (processRow a).getD jj "" = (processRow b).getD jj "" := by
      intro jj _ hjj
      have hjL : jj < titles.length := by omega
      calc (processRow a).getD jj ""
          = ((processRow a).take titles.length).getD jj "" := (getD_take_eq _ _ _ hjL).symm
        _ = ((processRow b).take titles.length).getD jj "" := by rw [h1]
        _ = (processRow b).getD jj "" := getD_take_eq _ _ _ hjL
    rw [appendPure_congr (processRow a) (processRow b) titles 0 d hagree]
    exact ih _

/-- C10: for every input that cleans successfully, a data row whose
processed fields number fewer than the column titles makes construction
fail with `IndexError` (the out-of-range subscript, not the sentinel
lookup's `ValueError`); when every row supplies at least as many fields
as titles, construction succeeds, and the parse depends only on the
first `titles.length` processed fields of each row — surplus trailing
fields are silently ignored with no re-alignment. -/
theorem C10_ragged_rows (raw : String) (rows titles : List String)
    (hc : clean_ephemeris_data raw = .ok (rows, titles)) :
    ((∃ r ∈ rows, (processRow r).length < titles.length) →
       Ephemeris.construct raw = .error .indexError) ∧
    ((∀ r ∈ rows, titles.length ≤ (processRow r).length) →
       Ephemeris.construct raw = .ok ⟨rows, titles, parsePure titles rows []⟩) ∧
    (∀ rows' : List String,
       List.Forall₂ (fun r r' => (processRow r).take titles.length =
         (processRow r').take titles.length) rows rows' →
       parsePure titles rows [] = parsePure titles rows' []) := by
  refine ⟨?_, ?_, ?_⟩
  · intro hex
    simp only [Ephemeris.construct, hc, parse_err titles rows [] hex]
  · intro hall
    simp only [Ephemeris.construct, hc, parse_ok titles rows [] hall]
  · intro rows' hf
    exact parsePure_congr titles rows rows' hf []

/-- Witness for C10: the one-field row `x` under two titles fails with
`IndexError`; the three-field row `x, y, z` under two titles succeeds
with the third field ignored. -/
theorem C10_ragged_rows_witness :
    clean_ephemeris_data "A, B\n\n$$SOE\nx\n$$EOE" = .ok (["x"], ["A", "B"]) ∧
    Ephemeris.construct "A, B\n\n$$SOE\nx\n$$EOE" = .error .indexError ∧
    Ephemeris.construct "A, B\n\n$$SOE\nx, y, z\n$$EOE" =
      .ok ⟨["x, y, z"], ["A", "B"], [("A", ["x"]), ("B", ["y"])]⟩ := by
  have hc : clean_ephemeris_data "A, B\n\n$$SOE\nx\n$$EOE" = .ok (["x"], ["A", "B"]) := by rfl
  refine ⟨hc, ?_, ?_⟩
  · exact (C10_ragged_rows _ _ _ hc).1 ⟨"x", by decide, by decide⟩
  · have hc2 : clean_ephemeris_data "A, B\n\n$$SOE\nx, y, z\n$$EOE" =
        .ok (["x, y, z"], ["A", "B"]) := by rfl
    have hh := (C10_ragged_rows _ _ _ hc2).2.1 (by decide)
    exact hh.trans (by rfl)

end Sunspot
